import Mathlib

/-!
# Verification of the NoNameDB L-store engine

A shallow embedding of the storage and concurrency kernel of the
NoNameDB repository (`src/lstore/`), together with proofs and
refutations of the frozen claims about it.

Conventions:
* Python `dict`s are embedded as insertion-ordered association lists
  (`AList` operations below reproduce dict semantics: lookup by key,
  update-in-place, insert-at-end, `pop`).
* Python `None` is embedded as `Option.none`; fallible Python code that
  can raise is embedded in `Except`, where the error value carries the
  state at the moment the exception is raised.
* Machine integers are embedded as `Int` with explicit encoding bounds
  where the code manipulates bytes.
-/

namespace NoNameDB

/-! ## Association-list helpers (Python `dict` semantics) -/

/-- Lookup in an insertion-ordered association list (Python `d[k]` /
`d.get(k)`). Keys are unique in a Python dict, so first match wins. -/
def alookup {α β : Type} [DecidableEq α] : List (α × β) → α → Option β
  | [], _ => none
  | (k, v) :: rest, key => if k = key then some v else alookup rest key

/-- `d[k] = v` on a Python dict: update in place if the key is present,
otherwise append at the end (dicts preserve insertion order). -/
def aset {α β : Type} [DecidableEq α] : List (α × β) → α → β → List (α × β)
  | [], key, val => [(key, val)]
  | (k, v) :: rest, key, val =>
      if k = key then (k, val) :: rest else (k, v) :: aset rest key val

/-- `d.pop(k)`: remove the entry; the caller decides what a missing key
means (Python raises `KeyError`, which the call sites model). -/
def apop {α β : Type} [DecidableEq α] : List (α × β) → α → List (α × β)
  | [], _ => []
  | (k, v) :: rest, key => if k = key then rest else (k, v) :: apop rest key

/-- `k in d` on a Python dict. -/
def amem {α β : Type} [DecidableEq α] (l : List (α × β)) (key : α) : Bool :=
  (alookup l key).isSome

/-- The key list of an association list, in insertion order. -/
def akeys {α β : Type} : List (α × β) → List α := List.map Prod.fst

theorem alookup_aset_self {α β : Type} [DecidableEq α]
    (l : List (α × β)) (k : α) (v : β) : alookup (aset l k v) k = some v := by
  induction l with
  | nil => simp [aset, alookup]
  | cons hd tl ih =>
    obtain ⟨k', v'⟩ := hd
    by_cases h : k' = k <;> simp [aset, alookup, h, ih]

theorem alookup_aset_ne {α β : Type} [DecidableEq α]
    (l : List (α × β)) (k k' : α) (v : β) (h : k ≠ k') :
    alookup (aset l k v) k' = alookup l k' := by
  induction l with
  | nil => simp [aset, alookup, h]
  | cons hd tl ih =>
    obtain ⟨k0, v0⟩ := hd
    by_cases h0 : k0 = k
    · subst h0; simp [aset, alookup, h]
    · simp only [aset, if_neg h0]
      by_cases h1 : k0 = k' <;> simp [alookup, h1, ih]

theorem alookup_isSome_iff_mem_akeys {α β : Type} [DecidableEq α]
    (l : List (α × β)) (k : α) : (alookup l k).isSome ↔ k ∈ akeys l := by
  induction l with
  | nil => simp [alookup, akeys]
  | cons hd tl ih =>
    obtain ⟨k0, v0⟩ := hd
    by_cases h : k0 = k <;> simp [alookup, akeys, h, ih]
    exact fun h' => absurd h'.symm h

/-! ## `src/lstore/config.py` -/

def INDIRECTION_COLUMN : Nat := 0
def RID_COLUMN : Nat := 1
def TIMESTAMP_COLUMN : Nat := 2
def SCHEMA_ENCODING_COLUMN : Nat := 3
def PAGE_SIZE : Nat := 4096
def RECORD_SIZE : Nat := 8
def RECORDS_PER_PAGE : Nat := PAGE_SIZE / RECORD_SIZE
def BASE_PAGES_PER_RANGE : Nat := 16

/-- Modelled from the spec: `MERGE_TRIGGER_COUNT` is imported by
`table.py` from `lstore.config` but is absent from `config.py`; the
spec (§4.5) gives the merge trigger default 1024. -/
def MERGE_TRIGGER_COUNT : Nat := 1024

/-! ## `src/lstore/page.py` — class `Page`

The `Page` actually present in `src/lstore/page.py`: an in-memory
4096-byte buffer with a slot counter. Its constructor takes no
arguments beyond `self`; it has no path, no dirty bit and no disk I/O.
-/

/-- `Page.__init__(self)`: `num_records = 0`, `data = bytearray(PAGE_SIZE)`.
`data` is the raw byte buffer (a list of byte values). -/
structure PageSrc where
  num_records : Nat
  data : List Nat
  deriving Repr, DecidableEq

def PageSrc.init : PageSrc := { num_records := 0, data := List.replicate PAGE_SIZE 0 }

/-- The number of parameters `Page.__init__` accepts besides `self`
(in `src/lstore/page.py` the signature is `def __init__(self):`). -/
def pageInitArity : Nat := 0

/-- `Page.has_capacity`: `self.num_records < config.RECORDS_PER_PAGE`. -/
def PageSrc.has_capacity (p : PageSrc) : Bool :=
  p.num_records < RECORDS_PER_PAGE

/-- `int.to_bytes(8, byteorder='big', signed=True)`: big-endian
two's-complement encoding; raises `OverflowError` outside the i64
range (embedded as `none`). -/
def toBytesBESigned (v : Int) : Option (List Nat) :=
  if v < -(2 ^ 63) ∨ 2 ^ 63 ≤ v then none
  else
    let u : Nat := (v % (2 ^ 64)).toNat
    some ((List.range 8).map fun i => u / 256 ^ (7 - i) % 256)

/-- `int.from_bytes(bytes, byteorder='big', signed=True)`. -/
def fromBytesBESigned (bs : List Nat) : Int :=
  let u : Nat := bs.foldl (fun acc b => acc * 256 + b) 0
  if u < 2 ^ 63 then (u : Int) else (u : Int) - 2 ^ 64

/-- Splice `repl` into `l` starting at position `off`
(`self.data[offset:offset+8] = value_bytes`). -/
def spliceAt {α : Type} (l : List α) (off : Nat) (repl : List α) : List α :=
  l.take off ++ repl ++ l.drop (off + repl.length)

/-- `Page.write(value)`: returns `False` when full, otherwise encodes the
value at `num_records * 8` and increments the counter.  The result is
`none` when `to_bytes` raises (value outside i64). -/
def PageSrc.write (p : PageSrc) (value : Int) : Option (Bool × PageSrc) :=
  if ¬p.has_capacity then some (false, p)
  else
    let offset := p.num_records * 8
    match toBytesBESigned value with
    | none => none
    | some bytes =>
        some (true, { num_records := p.num_records + 1,
                      data := spliceAt p.data offset bytes })

/-- `Page.read(index)`: `None` past the end, otherwise decode the slot. -/
def PageSrc.read (p : PageSrc) (index : Nat) : Option Int :=
  if p.num_records ≤ index then none
  else some (fromBytesBESigned ((p.data.drop (index * 8)).take 8))

/-- `n` successive `Page.write(0)` calls starting from `p`. -/
def writeN : Nat → PageSrc → PageSrc
  | 0, p => p
  | n + 1, p =>
      match p.write 0 with
      | some (_, p') => writeN n p'
      | none => p

theorem toBytesBESigned_zero :
    toBytesBESigned 0 = some [0, 0, 0, 0, 0, 0, 0, 0] := by decide

theorem PageSrc.write_of_capacity (p : PageSrc) (h : p.num_records < RECORDS_PER_PAGE) :
    p.write 0 = some (true, { num_records := p.num_records + 1,
                              data := spliceAt p.data (p.num_records * 8)
                                        [0, 0, 0, 0, 0, 0, 0, 0] }) := by
  simp [PageSrc.write, PageSrc.has_capacity, h, toBytesBESigned_zero]

theorem writeN_num_records : ∀ (n : Nat) (p : PageSrc),
    p.num_records + n ≤ RECORDS_PER_PAGE →
    (writeN n p).num_records = p.num_records + n := by
  intro n
  induction n with
  | zero => intro p _; simp [writeN]
  | succ m ih =>
    intro p hle
    have hcap : p.num_records < RECORDS_PER_PAGE := by omega
    rw [writeN, PageSrc.write_of_capacity p hcap,
      ih _ (by show p.num_records + 1 + m ≤ RECORDS_PER_PAGE; omega)]
    show p.num_records + 1 + m = p.num_records + (m + 1)
    omega

/-- C8 (counterexample). The claim says `has_capacity()` is true iff
`(N + 1) × 8 < 4096`, so that a page holding 511 slots is full.  On the
code, a fresh page after 511 writes (N = 511) still reports capacity —
`has_capacity` tests `N < RECORDS_PER_PAGE` with
`RECORDS_PER_PAGE = 4096 // 8 = 512` — even though
`(511 + 1) × 8 < 4096` is false, and a 512th write succeeds. -/
theorem C8_counterexample :
    (writeN 511 PageSrc.init).has_capacity = true ∧
    ¬(((writeN 511 PageSrc.init).num_records + 1) * 8 < PAGE_SIZE) ∧
    ((writeN 511 PageSrc.init).write 0).map Prod.fst = some true := by
  have h : (writeN 511 PageSrc.init).num_records = 511 := by
    simpa [PageSrc.init] using writeN_num_records 511 PageSrc.init (by decide)
  have hcap : (writeN 511 PageSrc.init).has_capacity = true := by
    simp [PageSrc.has_capacity, h]; decide
  refine ⟨hcap, ?_, ?_⟩
  · rw [h]; decide
  · rw [PageSrc.write_of_capacity _ (by rw [h]; decide)]; rfl

/-- C8 (amended). `has_capacity()` returns true iff the current slot
count `N` satisfies `N × 8 < 4096` (that is, `N < 512`); consequently a
page accepts up to 512 slot writes, and a write to a page already
holding 512 slots returns `False` and leaves the page unchanged. -/
theorem C8_amended (p : PageSrc) (v : Int) :
    (p.has_capacity = true ↔ p.num_records * 8 < PAGE_SIZE) ∧
    (RECORDS_PER_PAGE ≤ p.num_records → p.write v = some (false, p)) := by
  constructor
  · simp only [PageSrc.has_capacity, RECORDS_PER_PAGE, PAGE_SIZE, RECORD_SIZE,
      decide_eq_true_eq]
    omega
  · intro hfull
    simp [PageSrc.write, PageSrc.has_capacity, Nat.not_lt.mpr hfull]

/-- C8 (witness for the amended theorem): a page holding 512 slots
rejects a further write. -/
theorem C8_amended_witness :
    (PageSrc.has_capacity ⟨512, []⟩ = true ↔ 512 * 8 < PAGE_SIZE) ∧
    (RECORDS_PER_PAGE ≤ 512 → PageSrc.write ⟨512, []⟩ 7 = some (false, ⟨512, []⟩)) :=
  C8_amended ⟨512, []⟩ 7

/-! ## `src/lstore/lock.py` — classes `LockType`, `LockManager`

This is the lock manager the transaction layer imports
(`from lstore.lock import LockManager, LockType`).  State is
`_lock_dict : (table_name, rid) -> {transaction_id: lock_type}`.
-/

inductive LockType where
  | shared
  | exclusive
  deriving Repr, DecidableEq

/-- `_lock_dict`, an insertion-ordered dict of dicts. -/
def LMState : Type := List ((String × Int) × List (Int × LockType))

/-- The part of `acquire_lock` after the "transaction already holds the
lock" block falls through (also reached when the transaction holds no
lock on the record): grant S iff no exclusive holder, grant X iff the
holder dict is empty. -/
def acquireLockTail (s : LMState) (key : String × Int)
    (cur : List (Int × LockType)) (txn : Int) (mode : LockType) : Bool × LMState :=
  match mode with
  | LockType.shared =>
      if cur.any (fun p => p.2 = LockType.exclusive) then (false, s)
      else (true, aset s key (aset cur txn LockType.shared))
  | LockType.exclusive =>
      if 0 < cur.length then (false, s)
      else (true, aset s key (aset cur txn LockType.exclusive))

/-- `LockManager.acquire_lock(table_name, rid, transaction_id, lock_type)`.
Returns the grant decision and the updated `_lock_dict`. -/
def acquireLock (s : LMState) (tbl : String) (rid : Int) (txn : Int)
    (mode : LockType) : Bool × LMState :=
  let key := (tbl, rid)
  match alookup s key with
  | none => (true, aset s key [(txn, mode)])
  | some cur =>
    match alookup cur txn with
    | some m =>
        if m = mode then (true, s)
        else
          if m = LockType.shared ∧ mode = LockType.exclusive then
            if cur.length = 1 then
              (true, aset s key (aset cur txn LockType.exclusive))
            else (false, s)
          else acquireLockTail s (tbl, rid) cur txn mode
    | none => acquireLockTail s (tbl, rid) cur txn mode

/-- `LockManager.release_lock(table_name, rid, transaction_id)`. -/
def releaseLock (s : LMState) (tbl : String) (rid : Int) (txn : Int) : LMState :=
  match alookup s (tbl, rid) with
  | none => s
  | some cur =>
      if (alookup cur txn).isSome then
        let cur' := apop cur txn
        if cur' = [] then apop s (tbl, rid) else aset s (tbl, rid) cur'
      else s

/-- `LockManager.release_all_locks(transaction_id)`. -/
def releaseAllLocks (s : LMState) (txn : Int) : LMState :=
  (s.map (fun e => (e.1, apop e.2 txn))).filter (fun e => ¬e.2.isEmpty)

/-- The holder dict currently recorded for `(tbl, rid)` (empty when the
key is absent). -/
def holdersOf (s : LMState) (tbl : String) (rid : Int) : List (Int × LockType) :=
  (alookup s (tbl, rid)).getD []

theorem alookup_mem {α β : Type} [DecidableEq α] {l : List (α × β)} {k : α}
    {v : β} (h : alookup l k = some v) : (k, v) ∈ l := by
  induction l with
  | nil => simp [alookup] at h
  | cons hd tl ih =>
    obtain ⟨k0, v0⟩ := hd
    simp only [alookup] at h
    by_cases hk : k0 = k
    · rw [if_pos hk] at h; injection h with h; simp [hk, h]
    · rw [if_neg hk] at h; simp [ih h]

theorem lm_new_exclusive (s : LMState) (tbl : String) (rid txn : Int)
    (h : alookup (holdersOf s tbl rid) txn = none) :
    ((acquireLock s tbl rid txn LockType.exclusive).1 = true ↔
      holdersOf s tbl rid = []) := by
  unfold holdersOf at *
  cases hs : alookup s (tbl, rid) with
  | none => simp [acquireLock, hs]
  | some cur =>
    rw [hs] at h
    simp only [Option.getD_some] at h ⊢
    constructor
    · intro hres
      by_contra hne
      have hl : 0 < cur.length := List.length_pos.mpr hne
      simp [acquireLock, hs, h, acquireLockTail, hl] at hres
    · intro hc; simp [acquireLock, alookup, hs, h, acquireLockTail, hc]

theorem lm_new_shared (s : LMState) (tbl : String) (rid txn : Int)
    (h : alookup (holdersOf s tbl rid) txn = none) :
    ((acquireLock s tbl rid txn LockType.shared).1 = true ↔
      ∀ p ∈ holdersOf s tbl rid, p.2 ≠ LockType.exclusive) := by
  unfold holdersOf at *
  cases hs : alookup s (tbl, rid) with
  | none => simp [acquireLock, hs]
  | some cur =>
    rw [hs] at h
    simp only [Option.getD_some] at h ⊢
    simp only [acquireLock, hs, h, acquireLockTail]
    by_cases hany : cur.any (fun p => p.2 = LockType.exclusive) = true
    · rw [if_pos hany]
      simp only [List.any_eq_true, decide_eq_true_eq] at hany
      obtain ⟨p, hp, hpe⟩ := hany
      constructor
      · intro hfalse; exact absurd hfalse (by simp)
      · intro hall; exact absurd hpe (hall p hp)
    · rw [if_neg hany]
      simp only [List.any_eq_true, decide_eq_true_eq] at hany
      push_neg at hany
      constructor
      · intro _; exact hany
      · intro _; rfl

theorem lm_idempotent (s : LMState) (tbl : String) (rid txn : Int)
    (mode : LockType) (h : alookup (holdersOf s tbl rid) txn = some mode) :
    (acquireLock s tbl rid txn mode).1 = true := by
  unfold holdersOf at h
  cases hs : alookup s (tbl, rid) with
  | none => rw [hs] at h; simp [alookup] at h
  | some cur =>
    rw [hs] at h
    simp only [Option.getD_some] at h
    simp [acquireLock, hs, h]

theorem lm_upgrade (s : LMState) (tbl : String) (rid txn : Int)
    (h : alookup (holdersOf s tbl rid) txn = some LockType.shared) :
    ((acquireLock s tbl rid txn LockType.exclusive).1 = true ↔
      holdersOf s tbl rid = [(txn, LockType.shared)]) := by
  unfold holdersOf at *
  cases hs : alookup s (tbl, rid) with
  | none => rw [hs] at h; simp [alookup] at h
  | some cur =>
    rw [hs] at h
    simp only [Option.getD_some] at h ⊢
    have hred : acquireLock s tbl rid txn LockType.exclusive =
        if cur.length = 1 then
          (true, aset s (tbl, rid) (aset cur txn LockType.exclusive))
        else (false, s) := by
      simp [acquireLock, hs, h]
    rw [hred]
    by_cases hl : cur.length = 1
    · rw [if_pos hl]
      obtain ⟨a, ha⟩ := List.length_eq_one.mp hl
      subst ha
      obtain ⟨k, v⟩ := a
      simp only [alookup] at h
      by_cases hk : k = txn
      · rw [if_pos hk] at h
        injection h with h
        simp [hk, h]
      · rw [if_neg hk] at h
        simp [alookup] at h
    · rw [if_neg hl]
      constructor
      · intro hfalse; exact absurd hfalse (by simp)
      · intro hc; rw [hc] at hl; simp at hl

theorem lm_downgrade_fails (s : LMState) (tbl : String) (rid txn : Int)
    (h : alookup (holdersOf s tbl rid) txn = some LockType.exclusive) :
    (acquireLock s tbl rid txn LockType.shared).1 = false := by
  unfold holdersOf at h
  cases hs : alookup s (tbl, rid) with
  | none => rw [hs] at h; simp [alookup] at h
  | some cur =>
    rw [hs] at h
    simp only [Option.getD_some] at h
    have hany : cur.any (fun p => p.2 = LockType.exclusive) = true := by
      simp only [List.any_eq_true, decide_eq_true_eq]
      exact ⟨(txn, LockType.exclusive), alookup_mem h, rfl⟩
    simp [acquireLock, hs, h, acquireLockTail, hany]

/-- C4.  `acquire_lock` grants: a new exclusive lock iff the `(table,
rid)` lock is unheld; a new shared lock iff no exclusive holder exists;
an upgrade from shared to exclusive iff the requester is the sole
holder; a repeated request for a mode already held always; and every
other request (in particular an exclusive holder requesting shared)
fails — `acquireLock` returns its decision immediately, there is no
queuing or waiting state. -/
theorem C4_acquire_lock_cases (s : LMState) (tbl : String) (rid txn : Int)
    (mode : LockType) :
    (alookup (holdersOf s tbl rid) txn = none → mode = LockType.exclusive →
        ((acquireLock s tbl rid txn mode).1 = true ↔ holdersOf s tbl rid = [])) ∧
    (alookup (holdersOf s tbl rid) txn = none → mode = LockType.shared →
        ((acquireLock s tbl rid txn mode).1 = true ↔
          ∀ p ∈ holdersOf s tbl rid, p.2 ≠ LockType.exclusive)) ∧
    (alookup (holdersOf s tbl rid) txn = some mode →
        (acquireLock s tbl rid txn mode).1 = true) ∧
    (alookup (holdersOf s tbl rid) txn = some LockType.shared →
        mode = LockType.exclusive →
        ((acquireLock s tbl rid txn mode).1 = true ↔
          holdersOf s tbl rid = [(txn, LockType.shared)])) ∧
    (alookup (holdersOf s tbl rid) txn = some LockType.exclusive →
        mode = LockType.shared →
        (acquireLock s tbl rid txn mode).1 = false) := by
  refine ⟨?_, ?_, ?_, ?_, ?_⟩
  · intro h hm; subst hm; exact lm_new_exclusive s tbl rid txn h
  · intro h hm; subst hm; exact lm_new_shared s tbl rid txn h
  · intro h; exact lm_idempotent s tbl rid txn mode h
  · intro h hm; subst hm; exact lm_upgrade s tbl rid txn h
  · intro h hm; subst hm; exact lm_downgrade_fails s tbl rid txn h

/-- C4 (witness): on an empty lock table a fresh exclusive request for
`("T", 1)` by transaction 10 is granted. -/
theorem C4_acquire_lock_cases_witness :
    (acquireLock ([] : LMState) "T" 1 10 LockType.exclusive).1 = true :=
  ((C4_acquire_lock_cases ([] : LMState) "T" 1 10 LockType.exclusive).1
    (by rfl) rfl).mpr rfl

/-! ## `src/lstore/bufferpool.py` — class `BufferPoolManager`

The pool is keyed by `(path, page_num, col)` (`col` defaults to `None`).
On a miss the code executes `page = Page(path, page_num, col)`, but the
`Page` imported from `.page` has `def __init__(self):` — the call raises
`TypeError` before any page can be produced.  Dynamic call semantics are
embedded by checking the argument count against the constructor's
parameter count (`pageInitArity`).
-/

inductive PyErr where
  | typeError
  | attributeError
  | keyError
  | indexError
  deriving Repr, DecidableEq

/-- A buffer-pool cache key `(path, page_num, col)`. -/
def BPKey : Type := String × Nat × Option Nat

instance : DecidableEq BPKey := by unfold BPKey; infer_instance

/-- The `BufferPoolManager` state: `pool_size`, the insertion-ordered
`pages` dict (LRU at the front, MRU at the back), `pin_counts`, and the
`dirty_pages` set. -/
structure BPState where
  pool_size : Nat
  pages : List (BPKey × PageSrc)
  pin_counts : List (BPKey × Nat)
  dirty_pages : List BPKey

/-- `OrderedDict.move_to_end(key)`. -/
def moveToEnd (l : List (BPKey × PageSrc)) (key : BPKey) : List (BPKey × PageSrc) :=
  match alookup l key with
  | none => l
  | some v => apop l key ++ [(key, v)]

/-- Calling class `Page` with `nargs` positional arguments: Python
checks the count against `__init__`'s parameters and raises `TypeError`
on a mismatch; `src/lstore/page.py` declares `def __init__(self):`, so
only a zero-argument call would construct the (empty, memory-only)
page. -/
def callPageConstructor (nargs : Nat) : Except PyErr PageSrc :=
  if nargs = pageInitArity then Except.ok PageSrc.init
  else Except.error PyErr.typeError

/-- `BufferPoolManager.flush_page`: looks the page up and calls
`page.flush_to_disk()`.  The `Page` class in `src/lstore/page.py` has no
`flush_to_disk` method, so the call raises `AttributeError`. -/
def flushPage (s : BPState) (key : BPKey) : Except PyErr Unit :=
  if amem s.pages key then Except.error PyErr.attributeError
  else Except.ok ()

/-- The scan inside `_evict_page`: first page (LRU order) whose pin
count is zero; a missing pin-count entry would raise `KeyError`. -/
def evictFind (pins : List (BPKey × Nat)) :
    List (BPKey × PageSrc) → Except PyErr (Option BPKey)
  | [] => Except.ok none
  | (k, _) :: rest =>
      match alookup pins k with
      | none => Except.error PyErr.keyError
      | some 0 => Except.ok (some k)
      | some _ => evictFind pins rest

/-- `BufferPoolManager._evict_page`. -/
def evictPage (s : BPState) : Except PyErr (Bool × BPState) := do
  match ← evictFind s.pin_counts s.pages with
  | none => return (false, s)
  | some k =>
      if k ∈ s.dirty_pages then do
        flushPage s k
        return (true, { s with pages := apop s.pages k,
                               pin_counts := apop s.pin_counts k,
                               dirty_pages := s.dirty_pages.filter (· ≠ k) })
      else
        return (true, { s with pages := apop s.pages k,
                               pin_counts := apop s.pin_counts k })

/-- `BufferPoolManager._force_evict_page`. -/
def forceEvictPage (s : BPState) : Except PyErr BPState :=
  match s.pages with
  | [] => Except.ok s
  | (k, _) :: _ =>
      if k ∈ s.dirty_pages then do
        flushPage s k
        return { s with pages := apop s.pages k,
                        pin_counts := apop s.pin_counts k,
                        dirty_pages := s.dirty_pages.filter (· ≠ k) }
      else
        Except.ok { s with pages := apop s.pages k,
                           pin_counts := apop s.pin_counts k }

/-- The bounded eviction loop in `get_page`
(`while len(self.pages) >= self.pool_size and attempts < 3`), including
the pin-clamping retry when `_evict_page` fails. -/
def evictLoop : Nat → BPState → Except PyErr BPState
  | 0, s => Except.ok s
  | n + 1, s =>
      if s.pool_size ≤ s.pages.length then do
        match ← evictPage s with
        | (true, s') => evictLoop n s'
        | (false, s') =>
            evictLoop n
              { s' with pin_counts :=
                  s'.pin_counts.map (fun e => if 1 < e.2 then (e.1, 1) else e) }
      else Except.ok s

/-- `BufferPoolManager.get_page(path, page_num, col)`. -/
def getPage (s : BPState) (path : String) (page_num : Nat) (col : Option Nat) :
    Except PyErr (PageSrc × BPState) := do
  let key : BPKey := (path, page_num, col)
  match alookup s.pages key with
  | some page =>
      return (page, { s with
        pages := moveToEnd s.pages key,
        pin_counts := aset s.pin_counts key
          ((alookup s.pin_counts key).getD 0 + 1) })
  | none => do
      let s1 ← evictLoop 3 s
      let s2 ← if s1.pool_size ≤ s1.pages.length then forceEvictPage s1
               else pure s1
      -- `page = Page(path, page_num, col)`: three positional arguments
      let page ← callPageConstructor 3
      return (page, { s2 with
        pages := s2.pages ++ [(key, page)],
        pin_counts := aset s2.pin_counts key 1 })

/-- C2 (evaluation at the failing input).  The claim says a miss
constructs a Page (loading it from disk when the backing file exists),
inserts it at the MRU end with pin count 1 and returns it.  On the code,
the very first `get_page` against an empty pool — a miss — raises
`TypeError`: `get_page` calls `Page(path, page_num, col)` but
`Page.__init__` accepts no arguments, and the class has no disk-loading
path at all. -/
theorem C2_get_page_miss_raises :
    getPage ⟨1000, [], [], []⟩ "ECS165/Grades" 1 (some 0) =
      Except.error PyErr.typeError := by
  rfl

/-! ## `src/lstore/table.py` — class `Table`

`table.py` drives a file-backed `Page` object exposing `num_records()`,
`write`, `update`, `read` and a dirty bit through the buffer pool.  That
class is not in `src/` (the `Page` in `src/lstore/page.py` is a
different, memory-only variant whose constructor the buffer pool cannot
even call, see C2), so the page store is modelled from the spec.

Modelled from the spec: §4.1's logical page contract — a page is a
sequence of 64-bit slots; `write(v)` appends at index `N` while the
capacity rule `(N + 1) × 8 < 4096` holds; `update(i, v)` rewrites slot
`i` in place; `read(i)` is absent for `i ≥ N`; only integers can be
stored, so writing Python `None` raises.  The buffer pool behind
`_get_page` is modelled as a total store `(column, page_num) → slots`
that loads the page when it exists and otherwise yields a fresh empty
page (spec §4.3).
-/

/-- The slots of one logical page. -/
abbrev Slots := List Int

/-- Spec §4.1 capacity rule: header plus next slot must fit. -/
def slotsHasCapacity (p : Slots) : Bool := (p.length + 1) * 8 < PAGE_SIZE

/-- `Page.read(i)`: absent past the end. -/
def slotsRead (p : Slots) (i : Nat) : Option Int := p.get? i

/-- `Page.update(i, v)`: rewrite slot `i` in place (no-op out of range). -/
def slotsUpdate (p : Slots) (i : Nat) (v : Int) : Slots := p.set i v

/-- The in-memory state of a `Table` (`table.py`):
user-column count and key column, the page store (buffer pool plus
disk, see above), `page_range` (per column, the page numbers in
insertion order), `page_directory` (per column, `rid → [page_num,
slot_index]`), `index.indices` (per column, an optional ordered map
`rid → value`; values can be Python `None`), `last_page_number`,
`update_count` and `is_history`. -/
structure TableState where
  num_columns : Nat
  key_col : Nat
  pages : List ((Nat × Nat) × Slots)
  page_range : List (List Nat)
  page_directory : List (List (Int × (Nat × Nat)))
  indices : List (Option (List (Int × Option Int)))
  last_page_number : Nat
  update_count : Nat
  is_history : Bool
  deriving Repr, DecidableEq

/-- `self.metadata_columns = 4`. -/
def metadataColumns : Nat := 4

/-- `self.total_columns = self.num_columns + self.metadata_columns`. -/
def TableState.total_columns (t : TableState) : Nat := t.num_columns + metadataColumns

/-- `self._get_page(col, page_num)` through the (spec-modelled) buffer
pool: the stored page, or a fresh empty one. -/
def getPageT (t : TableState) (col pn : Nat) : Slots :=
  (alookup t.pages (col, pn)).getD []

/-- `self.page_directory[col]`. -/
def dirOf (t : TableState) (col : Nat) : List (Int × (Nat × Nat)) :=
  t.page_directory.getD col []

/-- `self.page_range[col]` (insertion-ordered page numbers). -/
def prOf (t : TableState) (col : Nat) : List Nat :=
  t.page_range.getD col []

/-- `self.index.indices[col]`. -/
def idxOf (t : TableState) (col : Nat) : Option (List (Int × Option Int)) :=
  t.indices.getD col none

/-- `self.indices.extend([None] * (col - len(self.indices) + 1))`. -/
def ensureIdxLen (l : List (Option (List (Int × Option Int)))) (col : Nat) :
    List (Option (List (Int × Option Int))) :=
  if l.length ≤ col then l ++ List.replicate (col - l.length + 1) none else l

/-- `Table.read_page(page_num, index)` with `col=None`: scan columns
`0 .. num_columns - 1` and return the first present slot. -/
def readPageNoCol (t : TableState) (pn idx : Nat) : Option Int :=
  (List.range t.num_columns).foldl
    (fun acc i =>
      match acc with
      | some v => some v
      | none => slotsRead (getPageT t i pn) idx)
    none

/-- `Index.restart_index_by_col(col)`: extend, create the tree if
absent, then upsert `read_page(v[0], v[1])` for every directory entry.
The evolving `self.indices` list is threaded explicitly (`idxs`); all
other table state is read from `t`, which these operations never
modify. -/
def restartIndexByColIdx (t : TableState)
    (idxs : List (Option (List (Int × Option Int)))) (col : Nat) :
    List (Option (List (Int × Option Int))) :=
  let idxs2 := ensureIdxLen idxs col
  let tree0 := ((idxs2.getD col none).getD [])
  let tree := (dirOf t col).foldl
    (fun tr kv => aset tr kv.1 (readPageNoCol t kv.2.1 kv.2.2)) tree0
  idxs2.set col (some tree)

/-- `Index.create_index(col)`: create an empty tree if absent, then
populate it from the page directory. -/
def createIndexIdx (t : TableState)
    (idxs : List (Option (List (Int × Option Int)))) (col : Nat) :
    List (Option (List (Int × Option Int))) :=
  let idxs2 := ensureIdxLen idxs col
  if (idxs2.getD col none).isSome then idxs2
  else restartIndexByColIdx t (idxs2.set col (some [])) col

/-- `Index.add_or_move_record_by_col(col, rid, value)`, as the new
`self.indices` list. -/
def addOrMoveIndices (t : TableState) (col : Nat) (rid : Int)
    (value : Option Int) : List (Option (List (Int × Option Int))) :=
  let idxs := ensureIdxLen t.indices col
  let idxs2 := if (idxs.getD col none).isNone then createIndexIdx t idxs col else idxs
  let tree := (idxs2.getD col none).getD []
  idxs2.set col (some (aset tree rid value))

/-- `Index.add_or_move_record_by_col(col, rid, value)`: only
`self.indices` changes. -/
def addOrMoveRecordByCol (t : TableState) (col : Nat) (rid : Int)
    (value : Option Int) : TableState :=
  { t with indices := addOrMoveIndices t col rid value }

/-- `Index.get_value_in_col_by_rid(col, rid)`: the stored value (itself
possibly `None`), or `None` when the tree or entry is missing. -/
def getValueInColByRid (t : TableState) (col : Nat) (rid : Int) : Option Int :=
  match idxOf t col with
  | none => none
  | some tree =>
      match alookup tree rid with
      | some v => v
      | none => none

/-- `Index.get_rid_in_col_by_value(col, value)`. -/
def getRidInColByValue (t : TableState) (col : Nat) (value : Int) : List Int :=
  match idxOf t col with
  | none => []
  | some tree => tree.filterMap fun kv => if kv.2 = some value then some kv.1 else none

/-- `Index.delete_record(col, rid)`. -/
def deleteRecordIdx (t : TableState) (col : Nat) (rid : Int) : TableState :=
  match idxOf t col with
  | none => t
  | some tree =>
      if (alookup tree rid).isSome then
        { t with indices := t.indices.set col (some (apop tree rid)) }
      else t

/-- The indirection-chain walk inside `Table.read_value` (lines
449–478): follow `INDIRECTION` until it is 0, a dangling read, a rid
missing from the target column's directory, or an already-visited rid;
`fuel` bounds the recursion and `none` means fuel ran out (claim C9
shows `(dirOf t col).length + 1` fuel always suffices). -/
def walkFuel (t : TableState) (col : Nat) :
    Nat → Int → List Int → (Nat × Nat) → Option (Nat × Nat)
  | 0, _, _, _ => none
  | fuel + 1, current, visited, pdet =>
      match alookup (dirOf t INDIRECTION_COLUMN) current with
      | none => some pdet
      | some ind_details =>
          match slotsRead (getPageT t INDIRECTION_COLUMN ind_details.1) ind_details.2 with
          | none => some pdet
          | some next =>
              if next = 0 ∨ next ∈ visited then some pdet
              else
                match alookup (dirOf t col) next with
                | none => some pdet
                | some pd' => walkFuel t col fuel next (next :: visited) pd'

/-- `Table.read_value(col, rid)`. -/
def readValue (t : TableState) (col : Nat) (rid : Int) : Option Int :=
  match alookup (dirOf t col) rid with
  | none => none
  | some pd0 =>
      if metadataColumns ≤ col ∧ t.is_history = false ∧
          col < t.indices.length ∧ (idxOf t col).isSome then
        getValueInColByRid t col rid
      else
        let pd :=
          if metadataColumns ≤ col ∧ t.is_history = false then
            (walkFuel t col ((dirOf t col).length + 1) rid [rid] pd0).getD pd0
          else pd0
        slotsRead (getPageT t col pd.1) pd.2

/-- `Table.read_value` applied to a possibly-`None` rid (Python's
`rid not in dict` is false for `None`, so the result is `None`). -/
def readValueO (t : TableState) (col : Nat) : Option Int → Option Int
  | none => none
  | some rid => readValue t col rid

/-- `class Record` (rid, key, columns). -/
structure TRecord where
  rid : Int
  key : Option Int
  columns : List (Option Int)
  deriving Repr, DecidableEq

/-- `Table.read_records(col_num, search_key, proj_col)`. -/
def readRecords (t : TableState) (col_num : Nat) (search_key : Int)
    (proj : List Nat) : List TRecord :=
  let actual_col := col_num + metadataColumns
  let rids : List Int :=
    if col_num = t.key_col then [search_key]
    else if t.is_history = false ∧ actual_col < t.indices.length ∧
        (idxOf t actual_col).isSome then
      getRidInColByValue t actual_col search_key
    else
      (dirOf t actual_col).filterMap fun kv =>
        if slotsRead (getPageT t actual_col kv.2.1) kv.2.2 = some search_key
        then some kv.1 else none
  rids.filterMap fun rid =>
    if (alookup (dirOf t (metadataColumns + t.key_col)) rid).isSome then
      let colvals := (List.range t.num_columns).map fun c =>
        if proj.getD c 0 = 1 then readValue t (c + metadataColumns) rid else none
      some ⟨rid, colvals.getD t.key_col none, colvals⟩
    else none

/-! ### The write paths of `Table.write` / `Table.update`

Fallible steps run in `Except TableState TableState`: an `error`
result is a raised Python exception carrying the table state at the
moment of the raise.
-/

/-- The "find page with capacity" scan (`for k, v in
self.page_range[i].items(): ...`): the first page number (insertion
order) whose page has capacity, paired with `num_records()` there. -/
def findCapacityPage (t : TableState) (col : Nat) : Option (Nat × Nat) :=
  (prOf t col).findSome? fun k =>
    let p := getPageT t col k
    if slotsHasCapacity p then some (k, p.length) else none

/-- The tail of one column write: `if page.write(value): mark_dirty;
[index.add_or_move]; page_directory[col][rid] = [page_num, index]`.
Writing Python `None` raises (`None` has no `to_bytes`), carrying the
current state. -/
def writeAt (t : TableState) (col pn idx : Nat) (rid : Int)
    (value : Option Int) (withIndex : Bool) : Except TableState TableState :=
  let p := getPageT t col pn
  if slotsHasCapacity p then
    match value with
    | none => Except.error t
    | some v =>
        let t1 := { t with pages := aset t.pages (col, pn) (p ++ [v]) }
        let t2 := if withIndex then addOrMoveRecordByCol t1 col rid value else t1
        Except.ok { t2 with page_directory :=
          t2.page_directory.set col (aset (dirOf t2 col) rid (pn, idx)) }
  else Except.ok t

/-- One column iteration of the write loops in `Table.write` /
`Table.update`: find a page with capacity, else allocate page number
`last_page_number + 1` (with `index = 0`), then write.  When
`nameErrOnEmpty` (the loops in `Table.update`, whose post-loop unpin
references the loop variable) an empty `page_range[col]` raises
`NameError`. -/
def writeOneCol (t : TableState) (col : Nat) (rid : Int) (value : Option Int)
    (withIndex nameErrOnEmpty : Bool) : Except TableState TableState :=
  if nameErrOnEmpty ∧ prOf t col = [] then Except.error t
  else
    match findCapacityPage t col with
    | some (pn, idx) => writeAt t col pn idx rid value withIndex
    | none =>
        let pn := t.last_page_number + 1
        let t1 := { t with last_page_number := pn,
                           page_range := t.page_range.set col (prOf t col ++ [pn]) }
        writeAt t1 col pn 0 rid value withIndex

/-- A sequence of column writes (the two `for` loops of `Table.write` /
`Table.update`), keyed by the same directory rid. -/
def writeCols (rid : Int) (withIndex nameErrOnEmpty : Bool) :
    List (Nat × Option Int) → TableState → Except TableState TableState
  | [], t => Except.ok t
  | (col, v) :: rest, t =>
      match writeOneCol t col rid v withIndex nameErrOnEmpty with
      | Except.error t' => Except.error t'
      | Except.ok t' => writeCols rid withIndex nameErrOnEmpty rest t'

/-- `Table.write(columns)`: `rid = columns[self.key_col]`; a duplicate
key returns `None` (no change); metadata `[0, rid, timestamp, 0]` then
the user columns, indexed by `rid` — the user-supplied key — in every
column's directory. -/
def tableWrite (t : TableState) (cols : List Int) (ts : Int) :
    Except TableState TableState :=
  match cols.get? t.key_col with
  | none => Except.error t
  | some rid =>
      if (alookup (dirOf t t.key_col) rid).isSome then Except.ok t
      else
        match writeCols rid false false
            [(0, some 0), (1, some rid), (2, some ts), (3, some 0)] t with
        | Except.error t' => Except.error t'
        | Except.ok t1 =>
            writeCols rid true false
              ((List.range t.num_columns).map fun i => (i + metadataColumns, cols.get? i))
              t1

/-! ### `Table.merge` (lines 718–862) -/

/-- The reverse map `page_num → slot_index → rid` over one column's
directory, for tail pages (`page_num > 16`). -/
def tailToRid (t : TableState) (col : Nat) : List (Nat × List (Nat × Int)) :=
  (dirOf t col).foldl
    (fun m kv =>
      if 16 < kv.2.1 then
        let sub := (alookup m kv.2.1).getD []
        aset m kv.2.1 (aset sub kv.2.2 kv.1)
      else m)
    []

/-- `if rid not in updated_records: ...; if i not in updated_records[rid]:
updated_records[rid][i] = value` — keep only the first value per
`(rid, column)`. -/
def insertFirstMerge (m : List (Int × List (Nat × Int))) (rid : Int)
    (col : Nat) (v : Int) : List (Int × List (Nat × Int)) :=
  match alookup m rid with
  | none => m ++ [(rid, [(col, v)])]
  | some sub =>
      match alookup sub col with
      | some _ => m
      | none => aset m rid (sub ++ [(col, v)])

/-- The collection phase of `merge`: walk each column's tail pages from
newest to oldest and record the first value seen per `(rid, column)`.
(`tail_page.read(idx)` with `idx < num_records` always returns a value;
the `getD 0` default is never taken.) -/
def collectUpdated (t : TableState) : List (Int × List (Nat × Int)) :=
  (List.range t.total_columns).foldl
    (fun m i =>
      let ttr := tailToRid t i
      let tails := ((prOf t i).filter (fun p => 16 < p)).reverse
      tails.foldl
        (fun m tp =>
          let page := getPageT t i tp
          (List.range page.length).foldl
            (fun m idx =>
              match alookup ttr tp with
              | none => m
              | some sub =>
                  match alookup sub idx with
                  | none => m
                  | some rid => insertFirstMerge m rid i ((slotsRead page idx).getD 0))
            m)
        m)
    []

/-- One `(column, value)` write-back of the merge apply phase. -/
def mergeApplyCol (t : TableState) (rid : Int) (bpn : Nat) (cv : Nat × Int) :
    TableState :=
  let base := getPageT t cv.1 bpn
  if slotsHasCapacity base then
    let idx := base.length
    let t1 := { t with pages := aset t.pages (cv.1, bpn) (base ++ [cv.2]) }
    let t2 := { t1 with page_directory :=
      t1.page_directory.set cv.1 (aset (dirOf t1 cv.1) rid (bpn, idx)) }
    if metadataColumns ≤ cv.1 then addOrMoveRecordByCol t2 cv.1 rid (some cv.2)
    else t2
  else t

/-- The apply phase for one rid: write back each collected column to
the base page `(rid % 16) + 1`, then reset `INDIRECTION` to 0 when
column `metadata_columns` was collected. -/
def mergeApplyRecord (t : TableState) (e : Int × List (Nat × Int)) : TableState :=
  let rid := e.1
  let bpn := (e.1 % 16).toNat + 1
  let t1 := e.2.foldl (fun s cv => mergeApplyCol s rid bpn cv) t
  if (alookup e.2 metadataColumns).isSome then
    let ind := getPageT t1 INDIRECTION_COLUMN bpn
    if slotsHasCapacity ind then
      let idx := ind.length
      let newPages := aset t1.pages (INDIRECTION_COLUMN, bpn) (ind ++ [(0 : Int)])
      let t2 := { t1 with pages := newPages }
      let newDir := t2.page_directory.set INDIRECTION_COLUMN
        (aset (dirOf t2 INDIRECTION_COLUMN) rid (bpn, idx))
      { t2 with page_directory := newDir }
    else t1
  else t1

/-- `Table.merge`: collect, apply, drop tail pages from every range,
reset `last_page_number` and the update counter. -/
def mergeTable (t : TableState) : TableState :=
  let t1 := (collectUpdated t).foldl mergeApplyRecord t
  { t1 with
    page_range := t1.page_range.map (fun pr => pr.filter (fun p => p ≤ 16)),
    last_page_number := t1.total_columns * 16 + t1.total_columns,
    update_count := 0 }

/-- The per-column "latest value vs requested value" computation of
`Table.update` (lines 256–274), returning `(updated, schema_encoding,
updated_values)`. -/
def updatePlan (t : TableState) (cols : List (Option Int)) (ridO : Option Int) :
    Bool × Nat × List (Option Int) :=
  (List.range t.num_columns).foldl
    (fun acc i =>
      let latest := readValueO t (i + metadataColumns) ridO
      match cols.get? i with
      | some (some v) =>
          if latest ≠ some v then (true, acc.2.1 + 2 ^ i, acc.2.2 ++ [some v])
          else (acc.1, acc.2.1, acc.2.2 ++ [latest])
      | _ => (acc.1, acc.2.1, acc.2.2 ++ [latest]))
    (false, 0, [])

/-- `Table.update(columns)`.  `rid = columns[self.key_col]` may itself
be Python `None`; the tail rid is `last_page_number + 1` (recomputed on
every call); nothing happens unless some column value actually changes;
the base record's `INDIRECTION` slot is rewritten in place, the indices
are re-pointed for the base rid, and the update counter drives
`merge`. -/
def tableUpdate (t : TableState) (cols : List (Option Int)) (ts : Int) :
    Except TableState TableState :=
  -- `columns[i]` for `i < num_columns` raises IndexError on a short list
  if cols.length < t.num_columns then Except.error t
  else
  match cols.get? t.key_col with
  | none => Except.error t
  | some ridO =>
      let oldInd := readValueO t INDIRECTION_COLUMN ridO
      let tailRid : Int := (t.last_page_number : Int) + 1
      let plan := updatePlan t cols ridO
      if plan.1 = false then Except.ok t
      else
        match writeCols tailRid false true
            [(0, oldInd), (1, some tailRid), (2, some ts),
             (3, some (plan.2.1 : Int))] t with
        | Except.error t' => Except.error t'
        | Except.ok t1 =>
            match writeCols tailRid true true
                (((List.range t.num_columns).zip plan.2.2).map fun p =>
                  (p.1 + metadataColumns, p.2)) t1 with
            | Except.error t' => Except.error t'
            | Except.ok t2 =>
                match ridO with
                | none => Except.error t2
                | some rid =>
                    match alookup (dirOf t2 INDIRECTION_COLUMN) rid with
                    | none => Except.error t2
                    | some info =>
                        let p := getPageT t2 INDIRECTION_COLUMN info.1
                        let newPages := aset t2.pages (INDIRECTION_COLUMN, info.1)
                          (slotsUpdate p info.2 tailRid)
                        let t3 := { t2 with pages := newPages }
                        let t4 := ((List.range t.num_columns).zip plan.2.2).foldl
                          (fun s q => addOrMoveRecordByCol s (q.1 + metadataColumns) rid q.2)
                          t3
                        let t5 := { t4 with update_count := t4.update_count + 1 }
                        if MERGE_TRIGGER_COUNT ≤ t5.update_count then
                          Except.ok { mergeTable t5 with update_count := 0 }
                        else Except.ok t5

/-- The loop body of `Table.delete(rid)`: for `i in
range(self.num_columns)` — note: not `total_columns` — pop the
directory entry (`KeyError` when absent) and drop the index entry. -/
def tableDeleteAux (rid : Int) : List Nat → TableState → Except TableState TableState
  | [], t => Except.ok t
  | i :: rest, t =>
      match alookup (dirOf t i) rid with
      | some _ =>
          let t1 := { t with page_directory :=
            t.page_directory.set i (apop (dirOf t i) rid) }
          tableDeleteAux rid rest (deleteRecordIdx t1 i rid)
      | none => Except.error t

/-- `Table.delete(rid)`. -/
def tableDelete (t : TableState) (rid : Int) : Except TableState TableState :=
  tableDeleteAux rid (List.range t.num_columns) t

/-- The length of a row's indirection chain: the number of tail records
reachable from the base record by following `INDIRECTION` until a 0, a
dangling link, or an already-visited rid.  Fuel as in `walkFuel`. -/
def chainLenAux (t : TableState) : Nat → Int → List Int → Nat
  | 0, _, _ => 0
  | fuel + 1, current, visited =>
      match alookup (dirOf t INDIRECTION_COLUMN) current with
      | none => 0
      | some loc =>
          match slotsRead (getPageT t INDIRECTION_COLUMN loc.1) loc.2 with
          | none => 0
          | some next =>
              if next = 0 ∨ next ∈ visited then 0
              else 1 + chainLenAux t fuel next (next :: visited)

/-- Indirection-chain length of the row with base rid `rid`. -/
def chainLength (t : TableState) (rid : Int) : Nat :=
  chainLenAux t ((dirOf t INDIRECTION_COLUMN).length + 1) rid [rid]

/-- A freshly constructed `Table(name, n, k, ...)` (constructor lines
21–60): empty page ranges, directories and indices for `n + 4` columns,
`last_page_number = total_columns * 16 + total_columns`. -/
def freshTable (n k : Nat) : TableState :=
  { num_columns := n
    key_col := k
    pages := []
    page_range := List.replicate (n + metadataColumns) []
    page_directory := List.replicate (n + metadataColumns) []
    indices := List.replicate (n + metadataColumns) none
    last_page_number := (n + metadataColumns) * 16 + (n + metadataColumns)
    update_count := 0
    is_history := false }

/-- Run a fallible table operation the way the Python caller observes
it: the final state whether or not an exception escaped. -/
def okOr : Except TableState TableState → TableState
  | Except.ok t => t
  | Except.error t => t

/-- Did the operation finish without raising? -/
def exceptOk : Except TableState TableState → Bool
  | Except.ok _ => true
  | Except.error _ => false

/-- Scenario (spec §8, scenario 1): 5 user columns, key column 0,
`insert(1, 10, 20, 30, 40)`. -/
def demoInsert : TableState :=
  okOr (tableWrite (freshTable 5 0) [1, 10, 20, 30, 40] 100)

/-- `update(1, None, None, 99, None, None)` (key in the key column). -/
def demoUpd1 : TableState :=
  okOr (tableUpdate demoInsert [some 1, none, some 99, none, none] 101)

/-- `update(1, None, None, 100, None, None)`. -/
def demoUpd2 : TableState :=
  okOr (tableUpdate demoUpd1 [some 1, none, some 100, none, none] 102)

/-! ## `src/lstore/transaction.py` — class `Transaction`

Before-image capture and the abort replay.  The forward execution of a
query against the table is spec-modelled as invoking the corresponding
`Table` primitive (spec §4.10: the Query façade translates caller
signatures to Table primitives); the rollback code below is from the
source (`_save_original_state` lines 27–54, `abort` lines 122–186).
-/

/-- `Transaction._save_original_state(table, key, cols)`: for each
position `i` with `cols[i] is not None`, save `record.columns[i]` from
the current full-projection read of the row. -/
def saveOriginalState (t : TableState) (key : Int) (cols : List (Option Int)) :
    List (Nat × Option Int) :=
  if cols = [] then []
  else
    match readRecords t t.key_col key (List.replicate t.num_columns 1) with
    | [] => []
    | rec :: _ =>
        cols.enum.foldl
          (fun m p =>
            if p.2.isSome then aset m p.1 (rec.columns.getD p.1 none) else m)
          []

/-- An entry of `self.modified_records` (query name and key; the
before-image is looked up in `original_values`). -/
inductive ModEntry where
  | upd (key : Int)
  | del (key : Int)
  deriving Repr, DecidableEq

def ModEntry.key : ModEntry → Int
  | ModEntry.upd k => k
  | ModEntry.del k => k

/-- One rollback step of `Transaction.abort`: an `update` entry builds
`columns = [None] * num_columns` overwritten with the saved values and
calls `table.update(columns)`; a `delete` entry rebuilds the full column
list and calls `table.write(columns)`.  (A `None` among a delete's
saved values would make `table.write` raise; such a before-image cannot
arise from an existing row, every saved column of which reads back a
value.) -/
def rollbackEntry (t : TableState) (e : ModEntry)
    (orig : List (Nat × Option Int)) : Except TableState TableState :=
  match e with
  | ModEntry.upd _ =>
      let columns := (List.range t.num_columns).map fun i => (alookup orig i).getD none
      tableUpdate t columns 0
  | ModEntry.del _ =>
      let columns := (List.range t.num_columns).map fun i => (alookup orig i).getD none
      match columns.mapM id with
      | some vals => tableWrite t vals 0
      | none => Except.error t

/-- The rollback loop of `abort` over the (already reversed) modified
list.  An exception inside a rollback escapes the loop — the `finally`
block only releases locks — leaving the table as it was at the raise. -/
def abortReplayAux (origs : List (Int × List (Nat × Option Int))) :
    List ModEntry → TableState → TableState
  | [], t => t
  | e :: rest, t =>
      match alookup origs e.key with
      | none => abortReplayAux origs rest t
      | some orig =>
          match rollbackEntry t e orig with
          | Except.ok t' => abortReplayAux origs rest t'
          | Except.error t' => t'

/-- `Transaction.abort`'s table effect: replay the before-images of the
modified records in reverse order. -/
def abortReplay (t : TableState) (origs : List (Int × List (Nat × Option Int)))
    (mods : List ModEntry) : TableState :=
  abortReplayAux origs mods.reverse t

/-- The before-image the transaction saves ahead of
`update(1, None, None, 99, None, None)` on the freshly inserted row:
column 2's original value. -/
def demoOrig : List (Nat × Option Int) :=
  saveOriginalState demoInsert 1 [none, none, some 99, none, none]

/-- C1 (evaluation at the failing input).  A transaction updates column
2 of row 1 from 20 to 99 and then aborts.  The abort's rollback calls
`table.update(columns)` with `columns = [None, None, 20, None, None]` —
the key slot holds `None` because `_save_original_state` only saved the
columns the update touched — so `Table.update` raises while writing the
`None` indirection value, the replay aborts, and the row keeps 99:
the table after abort equals the table after the update, not the table
before the transaction's first query. -/
theorem C1_abort_leaves_updated_row :
    readValue demoInsert 6 1 = some 20 ∧
    exceptOk (tableUpdate demoInsert [some 1, none, some 99, none, none] 101) = true ∧
    readValue demoUpd1 6 1 = some 99 ∧
    demoOrig = [(2, some 20)] ∧
    abortReplay demoUpd1 [(1, demoOrig)] [ModEntry.upd 1] = demoUpd1 ∧
    readValue (abortReplay demoUpd1 [(1, demoOrig)] [ModEntry.upd 1]) 6 1 = some 99 := by
  decide

/-- The 2-user-column table of the C3 scenario after `insert(7, 70)`. -/
def demoDel0 : TableState := okOr (tableWrite (freshTable 2 0) [7, 70] 100)

/-- ... and after `delete(7)`. -/
def demoDel1 : TableState := okOr (tableDelete demoDel0 7)

/-- C3 (evaluation at the failing input).  On a table with 2 user
columns (key column 0), `delete(7)` pops the directory entries of
columns `0 .. num_columns - 1` only — the metadata columns 0 and 1
here — so both user columns keep their directory and index entries, a
subsequent `read_records` still returns the row, and no tombstone is
written: the RID metadata slot still holds 7, not −1. -/
theorem C3_delete_leaves_row_visible :
    exceptOk (tableDelete demoDel0 7) = true ∧
    (alookup (dirOf demoDel1 4) 7).isSome = true ∧
    (alookup (dirOf demoDel1 5) 7).isSome = true ∧
    readRecords demoDel1 0 7 [1, 1] = [⟨7, some 7, [some 7, some 70]⟩] ∧
    alookup (dirOf demoDel0 1) 7 = some (104, 0) ∧
    getPageT demoDel1 1 104 = getPageT demoDel0 1 104 ∧
    slotsRead (getPageT demoDel1 1 104) 0 = some 7 := by
  decide

/-- C6 (evaluation at the failing input).  Two committed, value-changing
updates to row 1 (`col 2: 20 → 99 → 100`), no merge — yet the
indirection chain has length 1, not 2: `Table.update` computes the tail
rid as `last_page_number + 1` without consuming it, so both updates
allocate the same tail rid 163; the second overwrites the first tail's
directory entries and links the tail to itself. -/
theorem C6_chain_shorter_than_update_count :
    exceptOk (tableUpdate demoInsert [some 1, none, some 99, none, none] 101) = true ∧
    exceptOk (tableUpdate demoUpd1 [some 1, none, some 100, none, none] 102) = true ∧
    readValue demoUpd1 6 1 = some 99 ∧
    readValue demoUpd2 6 1 = some 100 ∧
    demoUpd2.update_count = 2 ∧
    chainLength demoUpd2 1 = 1 := by
  decide

/-! ### Termination of the `read_value` indirection walk (C9) -/

theorem length_filter_mono (l : List Int) (p q : Int → Bool)
    (h : ∀ x, q x = true → p x = true) :
    (l.filter q).length ≤ (l.filter p).length := by
  induction l with
  | nil => simp
  | cons a tl ih =>
    cases hq : q a with
    | true =>
      have hp := h a hq
      have := ih
      simp [List.filter_cons, hq, hp]
      omega
    | false =>
      cases hp : p a with
      | true =>
        have := ih
        simp [List.filter_cons, hq, hp]
        omega
      | false =>
        simp only [List.filter_cons, hq, hp]
        simpa using ih

theorem length_filter_lt_of_imp (l : List Int) (p q : Int → Bool)
    (himp : ∀ x, q x = true → p x = true) (a : Int) (hal : a ∈ l)
    (hpa : p a = true) (hqa : q a = false) :
    (l.filter q).length < (l.filter p).length := by
  have h1 : l.filter q = (l.filter p).filter q := by
    rw [List.filter_filter]
    apply List.filter_congr
    intro x _
    cases hq : q x with
    | true => simp [hq, himp x hq]
    | false => simp [hq]
  rw [h1]
  exact List.length_filter_lt_length_iff_exists.mpr
    ⟨a, List.mem_filter.mpr ⟨hal, hpa⟩, by simp [hqa]⟩

/-- C9.  The indirection-chain walk inside `read_value` terminates on
every table state: with fuel exceeding the number of directory keys not
yet visited, the fuelled walk always reaches one of its exit conditions
(`INDIRECTION = 0`, an already-visited rid, a dangling link) rather
than exhausting its fuel — each iteration either stops or moves to a
previously unvisited rid of the target column's finite directory. -/
theorem C9_read_value_walk_terminates :
    ∀ (fuel : Nat) (t : TableState) (col : Nat) (current : Int)
      (visited : List Int) (pdet : Nat × Nat),
      ((akeys (dirOf t col)).filter (fun k => decide (k ∉ visited))).length < fuel →
      (walkFuel t col fuel current visited pdet).isSome = true := by
  intro fuel
  induction fuel with
  | zero => intro t col current visited pdet h; omega
  | succ n ih =>
    intro t col current visited pdet h
    cases h0 : alookup (dirOf t INDIRECTION_COLUMN) current with
    | none => rw [walkFuel, h0]; rfl
    | some ind_details =>
      have hred : walkFuel t col (n + 1) current visited pdet =
          match slotsRead (getPageT t INDIRECTION_COLUMN ind_details.1) ind_details.2 with
          | none => some pdet
          | some next =>
              if next = 0 ∨ next ∈ visited then some pdet
              else
                match alookup (dirOf t col) next with
                | none => some pdet
                | some pd' => walkFuel t col n next (next :: visited) pd' := by
        rw [walkFuel, h0]
      rw [hred]
      cases h1 : slotsRead (getPageT t INDIRECTION_COLUMN ind_details.1) ind_details.2 with
      | none => rfl
      | some next =>
        show (if next = 0 ∨ next ∈ visited then some pdet
          else
            match alookup (dirOf t col) next with
            | none => some pdet
            | some pd' => walkFuel t col n next (next :: visited) pd').isSome = true
        by_cases h2 : next = 0 ∨ next ∈ visited
        · rw [if_pos h2]; rfl
        · rw [if_neg h2]
          cases h3 : alookup (dirOf t col) next with
          | none => rfl
          | some pd' =>
            have hmem : next ∈ akeys (dirOf t col) :=
              (alookup_isSome_iff_mem_akeys _ _).mp (by rw [h3]; rfl)
            have hnv : next ∉ visited := fun hc => h2 (Or.inr hc)
            have hdec := length_filter_lt_of_imp (akeys (dirOf t col))
              (fun k => decide (k ∉ visited)) (fun k => decide (k ∉ next :: visited))
              (by intro x hx; simp at hx ⊢; exact hx.2)
              next hmem (by simp [hnv]) (by simp)
            exact ih t col next (next :: visited) pd' (by omega)

/-- C9 (witness): on a fresh table the walk for column 4 from rid 7
terminates at once. -/
theorem C9_read_value_walk_terminates_witness :
    (walkFuel (freshTable 5 0) 4 1 7 [7] (1, 0)).isSome = true :=
  C9_read_value_walk_terminates 1 (freshTable 5 0) 4 7 [7] (1, 0) (by decide)

/-! ### `Table.write` keys every directory on the user-supplied key (C10) -/

/-- Structural well-formedness maintained by the table code: the
per-column lists cover all `total_columns` columns, and every page
number in use is bounded by `last_page_number` (so that a freshly
allocated `last_page_number + 1` never collides). -/
def WriteWF (t : TableState) : Prop :=
  t.page_range.length = t.total_columns ∧
  t.page_directory.length = t.total_columns ∧
  t.indices.length = t.total_columns ∧
  (∀ kp ∈ t.pages, kp.1.2 ≤ t.last_page_number) ∧
  (∀ pr ∈ t.page_range, ∀ pn ∈ pr, pn ≤ t.last_page_number)

instance (t : TableState) : Decidable (WriteWF t) := by
  unfold WriteWF; infer_instance

theorem getD_set_ne {α : Type} (l : List α) (i j : Nat) (x d : α) (h : i ≠ j) :
    (l.set i x).getD j d = l.getD j d := by
  simp [List.getD_eq_getElem?_getD, List.getElem?_set_ne h]

theorem getD_set_self {α : Type} (l : List α) (i : Nat) (x d : α)
    (h : i < l.length) : (l.set i x).getD i d = x := by
  simp [List.getD_eq_getElem?_getD, List.getElem?_set_self, h]

theorem mem_aset {α β : Type} [DecidableEq α] (l : List (α × β)) (k : α)
    (v : β) : ∀ x ∈ aset l k v, x = (k, v) ∨ x ∈ l := by
  induction l with
  | nil => intro x hx; simp [aset] at hx; simp [hx]
  | cons hd tl ih =>
    obtain ⟨k0, v0⟩ := hd
    intro x hx
    by_cases hk : k0 = k
    · rw [aset, if_pos hk] at hx
      rcases List.mem_cons.mp hx with h | h
      · subst hk; exact Or.inl h
      · exact Or.inr (List.mem_cons_of_mem _ h)
    · rw [aset, if_neg hk] at hx
      rcases List.mem_cons.mp hx with h | h
      · exact Or.inr (h ▸ List.mem_cons_self _ _)
      · rcases ih x h with h' | h'
        · exact Or.inl h'
        · exact Or.inr (List.mem_cons_of_mem _ h')

theorem mem_of_mem_getD {α : Type} (l : List (List α)) (c : Nat) (x : α)
    (h : x ∈ l.getD c []) : ∃ m ∈ l, x ∈ m := by
  induction l generalizing c with
  | nil => simp [List.getD] at h
  | cons hd tl ih =>
    cases c with
    | zero => exact ⟨hd, List.mem_cons_self _ _, h⟩
    | succ c' =>
      obtain ⟨m, hm, hxm⟩ := ih c' (by simpa using h)
      exact ⟨m, List.mem_cons_of_mem _ hm, hxm⟩

theorem ensureIdxLen_of_lt (l : List (Option (List (Int × Option Int))))
    (col : Nat) (h : col < l.length) : ensureIdxLen l col = l := by
  unfold ensureIdxLen
  rw [if_neg]
  omega

theorem createIndexIdx_length (t : TableState)
    (idxs : List (Option (List (Int × Option Int)))) (col : Nat)
    (h : col < idxs.length) : (createIndexIdx t idxs col).length = idxs.length := by
  unfold createIndexIdx restartIndexByColIdx
  dsimp only
  rw [ensureIdxLen_of_lt _ _ h]
  by_cases hs : (idxs.getD col none).isSome
  · rw [if_pos hs]
  · rw [if_neg hs]
    rw [ensureIdxLen_of_lt _ _ (by simpa using h)]
    simp

theorem addOrMoveIndices_length (t : TableState) (col : Nat) (rid : Int)
    (value : Option Int) (h : col < t.indices.length) :
    (addOrMoveIndices t col rid value).length = t.indices.length := by
  unfold addOrMoveIndices
  dsimp only
  rw [ensureIdxLen_of_lt _ _ h]
  by_cases hn : (t.indices.getD col none).isNone
  · rw [if_pos hn]
    simp [createIndexIdx_length t t.indices col h]
  · rw [if_neg hn]
    simp

/-- The state produced by a successful `writeAt` (capacity available,
integer value). -/
def writeAtState (t : TableState) (col pn idx : Nat) (rid : Int) (v : Int)
    (wi : Bool) : TableState :=
  let p := getPageT t col pn
  let t1 := { t with pages := aset t.pages (col, pn) (p ++ [v]) }
  let t2 := if wi then addOrMoveRecordByCol t1 col rid (some v) else t1
  { t2 with page_directory :=
      t2.page_directory.set col (aset (dirOf t2 col) rid (pn, idx)) }

theorem writeAt_eq_ok (t : TableState) (col pn idx : Nat) (rid : Int) (v : Int)
    (wi : Bool) (hcap : slotsHasCapacity (getPageT t col pn) = true) :
    writeAt t col pn idx rid (some v) wi =
      Except.ok (writeAtState t col pn idx rid v wi) := by
  unfold writeAt writeAtState
  rw [if_pos hcap]

theorem writeAtState_pd (t : TableState) (col pn idx : Nat) (rid : Int)
    (v : Int) (wi : Bool) :
    (writeAtState t col pn idx rid v wi).page_directory =
      t.page_directory.set col (aset (dirOf t col) rid (pn, idx)) := by
  unfold writeAtState
  cases wi <;> simp [addOrMoveRecordByCol, dirOf]

theorem writeAtState_pages (t : TableState) (col pn idx : Nat) (rid : Int)
    (v : Int) (wi : Bool) :
    (writeAtState t col pn idx rid v wi).pages =
      aset t.pages (col, pn) (getPageT t col pn ++ [v]) := by
  unfold writeAtState
  cases wi <;> simp [addOrMoveRecordByCol]

theorem writeAtState_pr (t : TableState) (col pn idx : Nat) (rid : Int)
    (v : Int) (wi : Bool) :
    (writeAtState t col pn idx rid v wi).page_range = t.page_range := by
  unfold writeAtState
  cases wi <;> simp [addOrMoveRecordByCol]

theorem writeAtState_lpn (t : TableState) (col pn idx : Nat) (rid : Int)
    (v : Int) (wi : Bool) :
    (writeAtState t col pn idx rid v wi).last_page_number = t.last_page_number := by
  unfold writeAtState
  cases wi <;> simp [addOrMoveRecordByCol]

theorem writeAtState_nc (t : TableState) (col pn idx : Nat) (rid : Int)
    (v : Int) (wi : Bool) :
    (writeAtState t col pn idx rid v wi).num_columns = t.num_columns := by
  unfold writeAtState
  cases wi <;> simp [addOrMoveRecordByCol]

theorem writeAtState_kc (t : TableState) (col pn idx : Nat) (rid : Int)
    (v : Int) (wi : Bool) :
    (writeAtState t col pn idx rid v wi).key_col = t.key_col := by
  unfold writeAtState
  cases wi <;> simp [addOrMoveRecordByCol]

theorem writeAtState_il (t : TableState) (col pn idx : Nat) (rid : Int)
    (v : Int) (wi : Bool) (hidxlen : col < t.indices.length) :
    (writeAtState t col pn idx rid v wi).indices.length = t.indices.length := by
  unfold writeAtState
  cases wi with
  | false => simp
  | true =>
    simp only [if_true, addOrMoveRecordByCol]
    exact addOrMoveIndices_length _ col rid (some v) hidxlen

theorem writeAtState_dir_self (t : TableState) (col pn idx : Nat) (rid : Int)
    (v : Int) (wi : Bool) (hdirlen : col < t.page_directory.length) :
    dirOf (writeAtState t col pn idx rid v wi) col =
      aset (dirOf t col) rid (pn, idx) := by
  unfold dirOf
  rw [writeAtState_pd]
  exact getD_set_self _ _ _ _ hdirlen

theorem writeAtState_dir_ne (t : TableState) (col pn idx : Nat) (rid : Int)
    (v : Int) (wi : Bool) (c : Nat) (hc : c ≠ col) :
    dirOf (writeAtState t col pn idx rid v wi) c = dirOf t c := by
  unfold dirOf
  rw [writeAtState_pd]
  exact getD_set_ne _ _ _ _ _ (fun he => hc he.symm)

theorem writeAtState_page_self (t : TableState) (col pn idx : Nat) (rid : Int)
    (v : Int) (wi : Bool) :
    getPageT (writeAtState t col pn idx rid v wi) col pn =
      getPageT t col pn ++ [v] := by
  unfold getPageT
  rw [writeAtState_pages, alookup_aset_self]
  rfl

theorem writeAtState_page_ne (t : TableState) (col pn idx : Nat) (rid : Int)
    (v : Int) (wi : Bool) (c pn' : Nat) (hne : (c, pn') ≠ (col, pn)) :
    getPageT (writeAtState t col pn idx rid v wi) c pn' = getPageT t c pn' := by
  unfold getPageT
  rw [writeAtState_pages, alookup_aset_ne _ _ _ _ (fun he => hne (by rw [he]))]

theorem writeAtState_pages_bound (t : TableState) (col pn idx : Nat)
    (rid : Int) (v : Int) (wi : Bool) :
    ∀ kp ∈ (writeAtState t col pn idx rid v wi).pages,
      kp = ((col, pn), getPageT t col pn ++ [v]) ∨ kp ∈ t.pages := by
  intro kp hkp
  rw [writeAtState_pages] at hkp
  exact mem_aset t.pages (col, pn) (getPageT t col pn ++ [v]) kp hkp

theorem getD_mem_of_lt {α : Type} (l : List (List α)) (n : Nat)
    (h : n < l.length) : l.getD n [] ∈ l := by
  rw [List.getD_eq_getElem _ _ h]
  exact List.getElem_mem h

theorem writeOneCol_spec (t : TableState) (col : Nat) (rid : Int) (v : Int)
    (wi : Bool) (hwf : WriteWF t) (hcol : col < t.total_columns) :
    ∃ t' pn idx,
      writeOneCol t col rid (some v) wi false = Except.ok t' ∧
      dirOf t' col = aset (dirOf t col) rid (pn, idx) ∧
      slotsRead (getPageT t' col pn) idx = some v ∧
      (∀ c, c ≠ col → dirOf t' c = dirOf t c) ∧
      (∀ c pn', c ≠ col → getPageT t' c pn' = getPageT t c pn') ∧
      WriteWF t' ∧
      t'.num_columns = t.num_columns ∧
      t'.key_col = t.key_col := by
  obtain ⟨hpr, hpd, hil, hpb, hprb⟩ := hwf
  cases hfind : findCapacityPage t col with
  | some loc =>
    obtain ⟨pn, idx⟩ := loc
    obtain ⟨k, hkmem, hkeq⟩ := List.exists_of_findSome?_eq_some hfind
    dsimp only at hkeq
    by_cases hc : slotsHasCapacity (getPageT t col k) = true
    · rw [if_pos hc] at hkeq
      injection hkeq with hkeq
      have hkpn : pn = k := (congrArg Prod.fst hkeq).symm
      have hkidx : (getPageT t col k).length = idx := congrArg Prod.snd hkeq
      subst hkpn
      refine ⟨writeAtState t col pn idx rid v wi, pn, idx, ?_, ?_, ?_, ?_, ?_, ?_, ?_, ?_⟩
      · unfold writeOneCol
        rw [if_neg (by simp), hfind]
        exact writeAt_eq_ok t col pn idx rid v wi hc
      · exact writeAtState_dir_self t col pn idx rid v wi (by rw [hpd]; exact hcol)
      · rw [writeAtState_page_self, ← hkidx]
        unfold slotsRead
        exact List.get?_concat_length _ _
      · intro c hcne; exact writeAtState_dir_ne t col pn idx rid v wi c hcne
      · intro c pn' hcne
        exact writeAtState_page_ne t col pn idx rid v wi c pn'
          (fun he => hcne (congrArg Prod.fst he))
      · have hpnle : pn ≤ t.last_page_number := by
          obtain ⟨m, hm, hpm⟩ := mem_of_mem_getD t.page_range col pn hkmem
          exact hprb m hm pn hpm
        have hnc := writeAtState_nc t col pn idx rid v wi
        refine ⟨?_, ?_, ?_, ?_, ?_⟩
        · rw [writeAtState_pr, TableState.total_columns, hnc,
            ← TableState.total_columns]
          exact hpr
        · rw [writeAtState_pd, List.length_set, TableState.total_columns, hnc,
            ← TableState.total_columns]
          exact hpd
        · rw [writeAtState_il t col pn idx rid v wi (by rw [hil]; exact hcol),
            TableState.total_columns, hnc, ← TableState.total_columns]
          exact hil
        · intro kp hkp
          rw [writeAtState_lpn]
          rcases writeAtState_pages_bound t col pn idx rid v wi kp hkp with h | h
          · rw [h]; exact hpnle
          · exact hpb kp h
        · intro pr hprm pn' hpn'
          rw [writeAtState_lpn]
          rw [writeAtState_pr] at hprm
          exact hprb pr hprm pn' hpn'
      · exact writeAtState_nc t col pn idx rid v wi
      · exact writeAtState_kc t col pn idx rid v wi
    · rw [if_neg hc] at hkeq
      cases hkeq
  | none =>
    set pn := t.last_page_number + 1 with hpn
    set t1 : TableState :=
      { t with last_page_number := pn,
               page_range := t.page_range.set col (prOf t col ++ [pn]) } with ht1
    have hnolook : alookup t.pages (col, pn) = none := by
      cases halo : alookup t.pages (col, pn) with
      | none => rfl
      | some s =>
        have hm := alookup_mem halo
        have := hpb ((col, pn), s) hm
        simp [hpn] at this
    have hempty : getPageT t1 col pn = [] := by
      unfold getPageT
      show (alookup t.pages (col, pn)).getD [] = []
      rw [hnolook]
      rfl
    have hcap : slotsHasCapacity (getPageT t1 col pn) = true := by
      rw [hempty]; decide
    have ht1pd : t1.page_directory = t.page_directory := rfl
    have ht1idx : t1.indices = t.indices := rfl
    have ht1pages : t1.pages = t.pages := rfl
    refine ⟨writeAtState t1 col pn 0 rid v wi, pn, 0, ?_, ?_, ?_, ?_, ?_, ?_, ?_, ?_⟩
    · unfold writeOneCol
      rw [if_neg (by simp), hfind]
      have := writeAt_eq_ok t1 col pn 0 rid v wi hcap
      exact this
    · have := writeAtState_dir_self t1 col pn 0 rid v wi
        (by rw [ht1pd, hpd]; exact hcol)
      rw [this]
      rfl
    · rw [writeAtState_page_self, hempty]
      rfl
    · intro c hcne
      rw [writeAtState_dir_ne t1 col pn 0 rid v wi c hcne]
      rfl
    · intro c pn' hcne
      rw [writeAtState_page_ne t1 col pn 0 rid v wi c pn'
        (fun he => hcne (congrArg Prod.fst he))]
      rfl
    · have hnc := writeAtState_nc t1 col pn 0 rid v wi
      have ht1nc : t1.num_columns = t.num_columns := rfl
      refine ⟨?_, ?_, ?_, ?_, ?_⟩
      · rw [writeAtState_pr, TableState.total_columns, hnc, ht1nc,
          ← TableState.total_columns]
        show (t.page_range.set col (prOf t col ++ [pn])).length = _
        rw [List.length_set]
        exact hpr
      · rw [writeAtState_pd, List.length_set, ht1pd, TableState.total_columns,
          hnc, ht1nc, ← TableState.total_columns]
        exact hpd
      · rw [writeAtState_il t1 col pn 0 rid v wi (by rw [ht1idx, hil]; exact hcol),
          ht1idx, TableState.total_columns, hnc, ht1nc, ← TableState.total_columns]
        exact hil
      · intro kp hkp
        rw [writeAtState_lpn]
        rcases writeAtState_pages_bound t1 col pn 0 rid v wi kp hkp with h | h
        · rw [h]
        · rw [ht1pages] at h
          have := hpb kp h
          show kp.1.2 ≤ t.last_page_number + 1
          omega
      · intro pr hprm pn' hpn'
        rw [writeAtState_lpn]
        rw [writeAtState_pr] at hprm
        show pn' ≤ t.last_page_number + 1
        rcases List.mem_or_eq_of_mem_set hprm with h | h
        · have := hprb pr h pn' hpn'
          omega
        · subst h
          rcases List.mem_append.mp hpn' with h | h
          · have hcolpr : col < t.page_range.length := by
              rw [hpr]; exact hcol
            have := hprb (prOf t col) (getD_mem_of_lt _ _ hcolpr) pn' h
            omega
          · simp at h
            omega
    · exact writeAtState_nc t1 col pn 0 rid v wi
    · exact writeAtState_kc t1 col pn 0 rid v wi

theorem writeCols_spec (rid : Int) (wi : Bool) :
    ∀ (pairs : List (Nat × Option Int)) (t : TableState),
      WriteWF t →
      (∀ p ∈ pairs, p.1 < t.total_columns ∧ p.2.isSome) →
      (pairs.map Prod.fst).Nodup →
      ∃ t', writeCols rid wi false pairs t = Except.ok t' ∧
        WriteWF t' ∧
        t'.num_columns = t.num_columns ∧
        t'.key_col = t.key_col ∧
        (∀ p ∈ pairs, ∃ loc : Nat × Nat,
          alookup (dirOf t' p.1) rid = some loc ∧
          slotsRead (getPageT t' p.1 loc.1) loc.2 = p.2) ∧
        (∀ c, c ∉ pairs.map Prod.fst →
          dirOf t' c = dirOf t c ∧ ∀ pn, getPageT t' c pn = getPageT t c pn) := by
  intro pairs
  induction pairs with
  | nil =>
    intro t hwf _ _
    exact ⟨t, rfl, hwf, rfl, rfl, by simp, by simp⟩
  | cons hd tl ih =>
    intro t hwf hbound hnodup
    obtain ⟨col, vOpt⟩ := hd
    obtain ⟨hcol, hvs⟩ := hbound (col, vOpt) (List.mem_cons_self _ _)
    obtain ⟨v, rfl⟩ : ∃ v, vOpt = some v := by
      cases vOpt with
      | none => simp at hvs
      | some v => exact ⟨v, rfl⟩
    obtain ⟨t1, pn, idx, hok, hdirself, hslot, hdirne, hpagene, hwf1, hnc1, hkc1⟩ :=
      writeOneCol_spec t col rid v wi hwf hcol
    have htot1 : t1.total_columns = t.total_columns := by
      rw [TableState.total_columns, hnc1, TableState.total_columns]
    have hbound1 : ∀ p ∈ tl, p.1 < t1.total_columns ∧ p.2.isSome := by
      intro p hp; rw [htot1]; exact hbound p (List.mem_cons_of_mem _ hp)
    rw [List.map_cons] at hnodup
    have hnn := List.nodup_cons.mp hnodup
    have hcolnot : col ∉ tl.map Prod.fst := hnn.1
    have hnodup1 : (tl.map Prod.fst).Nodup := hnn.2
    obtain ⟨t', hok', hwf', hnc', hkc', hprops', hframe'⟩ := ih t1 hwf1 hbound1 hnodup1
    refine ⟨t', ?_, hwf', by rw [hnc', hnc1], by rw [hkc', hkc1], ?_, ?_⟩
    · show writeCols rid wi false ((col, some v) :: tl) t = Except.ok t'
      rw [writeCols, hok]
      exact hok'
    · intro p hp
      rcases List.mem_cons.mp hp with h | h
      · subst h
        refine ⟨(pn, idx), ?_, ?_⟩
        · rw [(hframe' col hcolnot).1, hdirself, alookup_aset_self]
        · rw [(hframe' col hcolnot).2 pn]
          exact hslot
      · exact hprops' p h
    · intro c hc
      have hc1 : c ∉ tl.map Prod.fst := fun h => hc (by simp [h])
      have hcne : c ≠ col := fun h => hc (by simp [h])
      exact ⟨by rw [(hframe' c hc1).1, hdirne c hcne],
        fun pn' => by rw [(hframe' c hc1).2 pn', hpagene c pn' hcne]⟩

/-- C10.  For every row inserted through `Table.write`, the record id
used as the key of every column's page-directory entry — and the value
stored in the RID metadata slot — is the row's primary-key value
`columns[key_col]` itself: base rids come from user-supplied keys, not
from an allocator (only `Table.update`'s tail records use the
allocator-style `last_page_number + 1`, cf. C6). -/
theorem C10_write_keys_directories_with_user_key (t : TableState)
    (cols : List Int) (ts rid : Int)
    (hwf : WriteWF t)
    (hlen : cols.length = t.num_columns)
    (hrid : cols.get? t.key_col = some rid)
    (hfresh : alookup (dirOf t t.key_col) rid = none) :
    ∃ t', tableWrite t cols ts = Except.ok t' ∧
      (∀ c, c < t.total_columns → (alookup (dirOf t' c) rid).isSome = true) ∧
      ∃ loc : Nat × Nat,
        alookup (dirOf t' RID_COLUMN) rid = some loc ∧
        slotsRead (getPageT t' RID_COLUMN loc.1) loc.2 = some rid := by
  have htot4 : 4 ≤ t.total_columns := by
    rw [TableState.total_columns, metadataColumns]; omega
  have hm : ∀ p ∈ ([(0, some 0), (1, some rid), (2, some ts), (3, some 0)] :
      List (Nat × Option Int)), p.1 < t.total_columns ∧ p.2.isSome := by
    intro p hp
    simp only [List.mem_cons, List.not_mem_nil, or_false] at hp
    rcases hp with rfl | rfl | rfl | rfl <;> exact ⟨by omega, rfl⟩
  have hmnodup : (([(0, some 0), (1, some rid), (2, some ts), (3, some 0)] :
      List (Nat × Option Int)).map Prod.fst).Nodup := by
    rw [show (([(0, some 0), (1, some rid), (2, some ts), (3, some 0)] :
      List (Nat × Option Int)).map Prod.fst) = [0, 1, 2, 3] from rfl]
    decide
  obtain ⟨t1, hok1, hwf1, hnc1, hkc1, hprops1, hframe1⟩ :=
    writeCols_spec rid false _ t hwf hm hmnodup
  have htot1 : t1.total_columns = t.total_columns := by
    rw [TableState.total_columns, hnc1, TableState.total_columns]
  have hd : ∀ p ∈ (List.range t.num_columns).map
      (fun i => (i + metadataColumns, cols.get? i)),
      p.1 < t1.total_columns ∧ p.2.isSome := by
    intro p hp
    obtain ⟨i, hi, rfl⟩ := List.mem_map.mp hp
    have hin : i < t.num_columns := List.mem_range.mp hi
    constructor
    · rw [htot1, TableState.total_columns]
      show i + metadataColumns < t.num_columns + metadataColumns
      omega
    · show (cols.get? i).isSome
      rw [List.get?_eq_get (by omega : i < cols.length)]
      rfl
  have hdnodup : (((List.range t.num_columns).map
      (fun i => (i + metadataColumns, cols.get? i))).map Prod.fst).Nodup := by
    rw [List.map_map]
    have : (Prod.fst ∘ fun i => (i + metadataColumns, cols.get? i)) =
        fun i => i + metadataColumns := rfl
    rw [this]
    exact (List.nodup_range t.num_columns).map (fun a b h => by omega)
  obtain ⟨t2, hok2, hwf2, hnc2, hkc2, hprops2, hframe2⟩ :=
    writeCols_spec rid true _ t1 hwf1 hd hdnodup
  have hmeta_not_in_d : ∀ c, c < metadataColumns →
      c ∉ ((List.range t.num_columns).map
        (fun i => (i + metadataColumns, cols.get? i))).map Prod.fst := by
    intro c hc hmem
    rw [List.map_map] at hmem
    obtain ⟨i, _, heq⟩ := List.mem_map.mp hmem
    have : i + metadataColumns = c := heq
    rw [metadataColumns] at this hc
    omega
  refine ⟨t2, ?_, ?_, ?_⟩
  · show tableWrite t cols ts = Except.ok t2
    have hfs : (alookup (dirOf t t.key_col) rid).isSome = false := by
      rw [hfresh]; rfl
    simp only [tableWrite, hrid, hfs, Bool.false_eq_true, if_false, hok1]
    exact hok2
  · intro c hc
    by_cases hc4 : c < metadataColumns
    · have hframe := (hframe2 c (hmeta_not_in_d c hc4)).1
      have hcm : (c, if c = 0 then some 0 else if c = 1 then some rid
          else if c = 2 then some ts else some 0) ∈
          ([(0, some 0), (1, some rid), (2, some ts), (3, some 0)] :
            List (Nat × Option Int)) := by
        rw [metadataColumns] at hc4
        interval_cases c <;> simp
      obtain ⟨loc, hloc, _⟩ := hprops1 _ hcm
      rw [hframe]
      simp only at hloc
      rw [hloc]
      rfl
    · have hin : c - metadataColumns < t.num_columns := by
        rw [TableState.total_columns] at hc
        omega
      have hcm : (c, cols.get? (c - metadataColumns)) ∈
          (List.range t.num_columns).map
            (fun i => (i + metadataColumns, cols.get? i)) := by
        refine List.mem_map.mpr ⟨c - metadataColumns, List.mem_range.mpr hin, ?_⟩
        have : c - metadataColumns + metadataColumns = c := by omega
        rw [this]
      obtain ⟨loc, hloc, _⟩ := hprops2 _ hcm
      simp only at hloc
      rw [hloc]
      rfl
  · have hcm : ((1 : Nat), some rid) ∈
        ([(0, some 0), (1, some rid), (2, some ts), (3, some 0)] :
          List (Nat × Option Int)) := by simp
    obtain ⟨loc, hloc, hslot⟩ := hprops1 _ hcm
    have h1n : (1 : Nat) < metadataColumns := by rw [metadataColumns]; omega
    have hframe := hframe2 1 (hmeta_not_in_d 1 h1n)
    refine ⟨loc, ?_, ?_⟩
    · show alookup (dirOf t2 1) rid = some loc
      rw [hframe.1]
      exact hloc
    · show slotsRead (getPageT t2 1 loc.1) loc.2 = some rid
      rw [hframe.2 loc.1]
      exact hslot

/-- C10 (witness): inserting `(1, 10, 20, 30, 40)` into a fresh 5-column
table keys every column's directory — and the RID slot — with 1. -/
theorem C10_write_keys_directories_with_user_key_witness :
    ∃ t', tableWrite (freshTable 5 0) [1, 10, 20, 30, 40] 100 = Except.ok t' ∧
      (∀ c, c < (freshTable 5 0).total_columns →
        (alookup (dirOf t' c) 1).isSome = true) ∧
      ∃ loc : Nat × Nat,
        alookup (dirOf t' RID_COLUMN) 1 = some loc ∧
        slotsRead (getPageT t' RID_COLUMN loc.1) loc.2 = some 1 :=
  C10_write_keys_directories_with_user_key (freshTable 5 0) [1, 10, 20, 30, 40]
    100 1 (by decide) (by decide) (by decide) (by decide)

/-! ## `src/lstore/query.py` — class `Query`

The Query façade in `src/` calls a table API (`table.key`,
`table.get_record`, `index.locate`, …) that no class under `src/`
provides; those collaborators are modelled from the spec below.  The
Query methods themselves are from the source, including their lack of
any `try`/`except`: the class docstring promises "Any query that
crashes (due to exceptions) should return False", but no exception is
ever caught in `query.py`.
-/

/-- A record as the Query layer consumes it: its `INDIRECTION` metadata
value and its user columns. -/
structure QRecord where
  indirection : Int
  columns : List Int
  deriving Repr, DecidableEq

/-- Modelled from the spec: the table behind `query.py` — absent from
`src/` — per §4.5: `table.key` is the key column index,
`table.get_record(rid)` returns the record stored under `rid`, and
`index.locate(value, column)` returns the matching rids
(`rids_by_value`, §4.4), here as a finite map. -/
structure QTable where
  key : Nat
  num_columns : Nat
  records : List (Int × QRecord)
  locateMap : List ((Int × Nat) × List Int)
  deriving Repr, DecidableEq

/-- Modelled from the spec: `table.get_record(rid)` — the stored record,
or `None`.  `query.py`'s `select_version` passes the whole rid *list*
returned by `locate` where a rid is expected; subscripting the record
dictionary with a list raises `TypeError` (unhashable key), captured by
the sum argument. -/
def qGetRecord (qt : QTable) : Int ⊕ List Int → Except PyErr (Option QRecord)
  | Sum.inl rid => Except.ok (alookup qt.records rid)
  | Sum.inr _ => Except.error PyErr.typeError

/-- Modelled from the spec: `index.locate(value, column)`. -/
def qLocate (qt : QTable) (value : Int) (column : Nat) : List Int :=
  (alookup qt.locateMap (value, column)).getD []

/-- The number of iterations of `for _ in range(k)` for a Python int:
zero when `k ≤ 0`. -/
def pyRangeLen (k : Int) : Nat := if k ≤ 0 then 0 else k.toNat

/-- The projection comprehension
`[record.columns[i] for i in range(len(proj)) if proj[i] == 1]`. -/
def qProject (record : QRecord) (proj : List Nat) : List Int :=
  (List.range proj.length).filterMap fun i =>
    if proj.getD i 0 = 1 then some (record.columns.getD i 0) else none

/-- `Query.select(search_key, search_key_index, projected_columns_index)`
(query.py lines 73–92); `none` plays Python's literal `False`. -/
def querySelect (qt : QTable) (search_key : Int) (ski : Nat)
    (proj : List Nat) : Option (List (List Int)) :=
  let rids := qLocate qt search_key ski
  if rids = [] then none
  else
    let results := rids.filterMap fun rid =>
      match alookup qt.records rid with
      | none => none
      | some record => some (qProject record proj)
    if results = [] then none else some results

/-- The `for _ in range(relative_version)` loop of
`Query.select_version`: follow `record.indirection`, returning `False`
(`none`) when no older version is available. -/
def versionLoopQ (qt : QTable) :
    Nat → Int ⊕ List Int → Except PyErr (Option (Int ⊕ List Int))
  | 0, vr => Except.ok (some vr)
  | n + 1, vr =>
      match qGetRecord qt vr with
      | Except.error e => Except.error e
      | Except.ok none => Except.ok none
      | Except.ok (some record) =>
          if record.indirection = 0 then Except.ok none
          else versionLoopQ qt n (Sum.inl record.indirection)

/-- `Query.select_version(search_key, search_key_index,
projected_columns_index, relative_version)` (query.py lines 107–127):
`version_rid` starts as the *list* returned by `locate`, and the loop
runs `range(relative_version)` times — never for a negative version. -/
def querySelectVersion (qt : QTable) (search_key : Int) (ski : Nat)
    (proj : List Nat) (relative_version : Int) :
    Except PyErr (Option (List (List Int))) :=
  let rid := qLocate qt search_key ski
  if rid = [] then Except.ok none
  else
    match versionLoopQ qt (pyRangeLen relative_version) (Sum.inr rid) with
    | Except.error e => Except.error e
    | Except.ok none => Except.ok none
    | Except.ok (some vr) =>
        match qGetRecord qt vr with
        | Except.error e => Except.error e
        | Except.ok none => Except.ok none
        | Except.ok (some record) => Except.ok (some [qProject record proj])

/-- `Query.increment(key, column)` (query.py lines 215–226): selects the
row, unpacks `r = r[0]`, then evaluates `r[0][column] + 1` — but `r[0]`
is an integer, and subscripting an int raises `TypeError`. -/
def queryIncrement (qt : QTable) (key : Int) (column : Nat) :
    Except PyErr (Option Bool) :=
  match querySelect qt key qt.key (List.replicate qt.num_columns 1) with
  | none => Except.ok none
  | some results =>
      match results with
      | [] => Except.ok none
      | r :: _ =>
          match r with
          | [] => Except.error PyErr.indexError
          | _ :: _ => Except.error PyErr.typeError

/-- The table of spec §8 scenario 2 as the Query layer sees it: base
record 1 (values `1, 10, 20, 30, 40`) with three tail versions
(col 2 = 99, 100, 101); base `INDIRECTION` points at the newest tail. -/
def demoQT : QTable :=
  { key := 0
    num_columns := 5
    records :=
      [(1, ⟨4, [1, 10, 20, 30, 40]⟩),
       (4, ⟨3, [1, 10, 101, 30, 40]⟩),
       (3, ⟨2, [1, 10, 100, 30, 40]⟩),
       (2, ⟨0, [1, 10, 99, 30, 40]⟩)]
    locateMap := [((1, 0), [1])] }

/-- C5 (evaluation at the failing input).  The claim says
`select_version(key, proj, k)` reads the record at index
`min(|k|, L)` of the version chain — the base record for `k = -99` on a
chain of length 3, the current version for `k = 0`.  On the code every
such call raises `TypeError` instead: `version_rid` is the rid *list*
returned by `index.locate` and is passed to `get_record` unchanged, and
the walk `for _ in range(relative_version)` runs zero times for any
negative `k`, so the code cannot step the chain at all. -/
theorem C5_select_version_raises :
    querySelectVersion demoQT 1 0 [1, 1, 1, 1, 1] (-99) =
      Except.error PyErr.typeError ∧
    querySelectVersion demoQT 1 0 [1, 1, 1, 1, 1] (-2) =
      Except.error PyErr.typeError ∧
    querySelectVersion demoQT 1 0 [1, 1, 1, 1, 1] 0 =
      Except.error PyErr.typeError :=
  ⟨rfl, rfl, rfl⟩

/-- C7 (evaluation at the failing input).  The claim says every public
Query operation returns its result or the sentinel `False`, exceptions
being caught inside the façade.  On the code, `increment(1, 2)` — on a
table where `select` itself succeeds — raises `TypeError`
(`r[0][column]` subscripts an int), and `query.py` contains no handler
to convert it to `False`, contradicting the class's own docstring. -/
theorem C7_increment_raises :
    querySelect demoQT 1 0 [1, 1, 1, 1, 1] = some [[1, 10, 20, 30, 40]] ∧
    queryIncrement demoQT 1 2 = Except.error PyErr.typeError :=
  ⟨rfl, rfl⟩

end NoNameDB
